import Mathlib

/-!
Verification of the gh-issues-pr-export toolchain (export_issues_prs.py,
cleanup_img_ext.py) against its natural-language specification.

The Python source is shallowly embedded: bytes are `Nat` values, paths are
`List String` component lists, the external world (network, filesystem
contents, OS rename success) is an explicit environment record, and each
Python function is translated to a Lean definition of the same name.
-/

/-! ### Extension sniffer (detect_ext in cleanup_img_ext.py, detect_ext_from_file
in export_issues_prs.py; both have the identical byte-level logic).
The file read is modelled by passing the file bytes directly. -/

/-- Magic bytes 89 50 4E 47 0D 0A 1A 0A of a PNG file. -/
def pngSig : List Nat := [0x89, 0x50, 0x4E, 0x47, 0x0D, 0x0A, 0x1A, 0x0A]

/-- Magic bytes FF D8 FF of a JPEG file. -/
def jpgSig : List Nat := [0xFF, 0xD8, 0xFF]

/-- ASCII bytes of GIF87a. -/
def gif87Sig : List Nat := [71, 73, 70, 56, 55, 97]

/-- ASCII bytes of GIF89a. -/
def gif89Sig : List Nat := [71, 73, 70, 56, 57, 97]

/-- ASCII bytes of RIFF. -/
def riffSig : List Nat := [82, 73, 70, 70]

/-- ASCII bytes of WEBP. -/
def webpSig : List Nat := [87, 69, 66, 80]

/-- detect_ext: `data = path.read_bytes()[:12]`, then magic-number checks. -/
def detect_ext (l : List Nat) : Option String :=
  let data := l.take 12
  if pngSig.isPrefixOf data then some ".png"
  else if jpgSig.isPrefixOf data then some ".jpg"
  else if gif87Sig.isPrefixOf data || gif89Sig.isPrefixOf data then some ".gif"
  else if 12 ≤ data.length ∧ data.take 4 = riffSig ∧ (data.drop 8).take 4 = webpSig
    then some ".webp"
  else none

theorem prefix_take_iff_of_le {α : Type _} [DecidableEq α] (p l : List α) (n : Nat)
    (h : p.length ≤ n) : p <+: l.take n ↔ p <+: l := by
  constructor
  · intro hp
    exact hp.trans (List.take_prefix n l)
  · rintro ⟨t, rfl⟩
    exact ⟨t.take (n - p.length), by
      rw [List.take_append_eq_append_take, List.take_of_length_le h]⟩

theorem isPrefixOf_take12 (p l : List Nat) (h : p.length ≤ 12) :
    p.isPrefixOf (l.take 12) = true ↔ p <+: l := by
  rw [List.isPrefixOf_iff_prefix]
  exact prefix_take_iff_of_le p l 12 h

theorem webp_cond_iff (l : List Nat) :
    (12 ≤ (l.take 12).length ∧ (l.take 12).take 4 = riffSig ∧
      ((l.take 12).drop 8).take 4 = webpSig)
    ↔ (12 ≤ l.length ∧ l.take 4 = riffSig ∧ (l.drop 8).take 4 = webpSig) := by
  rw [List.length_take, List.take_take, List.drop_take, List.take_take]
  constructor
  · rintro ⟨h1, h2, h3⟩
    exact ⟨by omega, by simpa using h2, by simpa using h3⟩
  · rintro ⟨h1, h2, h3⟩
    exact ⟨by omega, by simpa using h2, by simpa using h3⟩

theorem not_both_prefix {p q : List Nat} (hpq : ¬ p <+: q) (hqp : ¬ q <+: p)
    {l : List Nat} : p <+: l → q <+: l → False := fun hp hq =>
  (List.prefix_or_prefix_of_prefix hp hq).elim hpq hqp

theorem take4_riff_imp {l : List Nat} (h : l.take 4 = riffSig) : riffSig <+: l :=
  ⟨l.drop 4, by rw [← h, List.take_append_drop]⟩

theorem detect_ext_eq (l : List Nat) : detect_ext l =
    (if pngSig <+: l then some ".png"
    else if jpgSig <+: l then some ".jpg"
    else if (gif87Sig <+: l ∨ gif89Sig <+: l) then some ".gif"
    else if (12 ≤ l.length ∧ l.take 4 = riffSig ∧ (l.drop 8).take 4 = webpSig)
      then some ".webp"
    else none) := by
  unfold detect_ext
  simp only [Bool.or_eq_true, List.isPrefixOf_iff_prefix,
    prefix_take_iff_of_le pngSig l 12 (by decide),
    prefix_take_iff_of_le jpgSig l 12 (by decide),
    prefix_take_iff_of_le gif87Sig l 12 (by decide),
    prefix_take_iff_of_le gif89Sig l 12 (by decide),
    webp_cond_iff l]

/-- C5: the sniffer returns .png iff the input starts with the 8-byte PNG
signature, .jpg iff it starts with FF D8 FF, .gif iff it starts with GIF87a or
GIF89a, .webp iff bytes 0-3 are RIFF and bytes 8-11 are WEBP (so at least 12
bytes are present); every other byte sequence, including truncated and empty
input, yields none (unknown), and the result depends only on the first 12
bytes. -/
theorem detect_ext_characterization (l : List Nat) :
    (detect_ext l = some ".png" ↔ pngSig <+: l)
  ∧ (detect_ext l = some ".jpg" ↔ jpgSig <+: l)
  ∧ (detect_ext l = some ".gif" ↔ (gif87Sig <+: l ∨ gif89Sig <+: l))
  ∧ (detect_ext l = some ".webp" ↔
      (12 ≤ l.length ∧ l.take 4 = riffSig ∧ (l.drop 8).take 4 = webpSig))
  ∧ (detect_ext l = none ↔
      ¬ pngSig <+: l ∧ ¬ jpgSig <+: l ∧ ¬ (gif87Sig <+: l ∨ gif89Sig <+: l) ∧
      ¬ (12 ≤ l.length ∧ l.take 4 = riffSig ∧ (l.drop 8).take 4 = webpSig))
  ∧ detect_ext l = detect_ext (l.take 12) := by
  have npj : pngSig <+: l → jpgSig <+: l → False :=
    not_both_prefix (by decide) (by decide)
  have np87 : pngSig <+: l → gif87Sig <+: l → False :=
    not_both_prefix (by decide) (by decide)
  have np89 : pngSig <+: l → gif89Sig <+: l → False :=
    not_both_prefix (by decide) (by decide)
  have npr : pngSig <+: l → riffSig <+: l → False :=
    not_both_prefix (by decide) (by decide)
  have nj87 : jpgSig <+: l → gif87Sig <+: l → False :=
    not_both_prefix (by decide) (by decide)
  have nj89 : jpgSig <+: l → gif89Sig <+: l → False :=
    not_both_prefix (by decide) (by decide)
  have njr : jpgSig <+: l → riffSig <+: l → False :=
    not_both_prefix (by decide) (by decide)
  have n87r : gif87Sig <+: l → riffSig <+: l → False :=
    not_both_prefix (by decide) (by decide)
  have n89r : gif89Sig <+: l → riffSig <+: l → False :=
    not_both_prefix (by decide) (by decide)
  have htake : detect_ext l = detect_ext (l.take 12) := by
    simp [detect_ext, List.take_take]
  refine ⟨?_, ?_, ?_, ?_, ?_, htake⟩ <;>
  · rw [detect_ext_eq]
    split_ifs with h1 h2 h3 h4 <;>
      simp_all <;>
      intro _ hr4 _ <;>
      first
        | exact npr (take4_riff_imp hr4)
        | exact njr (take4_riff_imp hr4)
        | exact h3.elim (fun hg => n87r hg (take4_riff_imp hr4))
            (fun hg => n89r hg (take4_riff_imp hr4))

/-! ### Filename synthesis (sanitize_name, filename_from_url) and the pieces of
Python library behaviour they use: posixpath basename and splitext, and the
path component of urllib.parse.urlsplit. Character classes are the ASCII ones
(the sanitizer regex class is ASCII in the source). The ValueError that
urlsplit raises for unbalanced brackets in the authority is not modelled. -/

/-- Characters the sanitizer regex class A-Za-z0-9._- keeps. -/
def isSafeChar (c : Char) : Bool :=
  (('A' ≤ c && c ≤ 'Z') || ('a' ≤ c && c ≤ 'z') || ('0' ≤ c && c ≤ '9')
    || c == '.' || c == '_' || c == '-')

/-- One pass of re.sub with pattern [^A-Za-z0-9._-]+ and replacement _ :
every maximal run of unsafe characters becomes a single underscore. The flag
records whether the previous character was part of an unsafe run. -/
def collapseUnsafeGo : List Char → Bool → List Char
  | [], _ => []
  | c :: cs, prevUnsafe =>
    if isSafeChar c then c :: collapseUnsafeGo cs false
    else if prevUnsafe then collapseUnsafeGo cs true
    else '_' :: collapseUnsafeGo cs true

/-- str.strip("_"): drop leading and trailing underscores. -/
def stripUnderscores (l : List Char) : List Char :=
  ((l.dropWhile (fun c => c == '_')).reverse.dropWhile (fun c => c == '_')).reverse

/-- sanitize_name: collapse unsafe runs to _ , strip _ , default to image. -/
def sanitize_name (name : String) : String :=
  if stripUnderscores (collapseUnsafeGo name.toList false) = [] then "image"
  else (stripUnderscores (collapseUnsafeGo name.toList false)).asString

/-- Index of the last occurrence of a character, as str.rfind. -/
def rfindPos (l : List Char) (c : Char) : Option Nat :=
  match l with
  | [] => none
  | x :: xs =>
    match rfindPos xs c with
    | some i => some (i + 1)
    | none => if x = c then some 0 else none

/-- posixpath.basename: everything after the last slash. -/
def afterLastSlash (l : List Char) : List Char :=
  (l.reverse.takeWhile (fun c => c ≠ '/')).reverse

/-- posixpath.splitext: split off the extension at the last dot, provided the
dot lies after the last slash and at least one earlier character of the
final path component is not a dot. -/
def splitExt (p : List Char) : List Char × List Char :=
  let nameStart := match rfindPos p '/' with | some i => i + 1 | none => 0
  match rfindPos p '.' with
  | none => (p, [])
  | some di =>
    if nameStart ≤ di ∧ ((p.drop nameStart).take (di - nameStart)).any (fun c => c ≠ '.')
    then (p.take di, p.drop di)
    else (p, [])

/-- Characters allowed in a URL scheme after the first letter. -/
def isSchemeChar (c : Char) : Bool :=
  c.isAlpha || c.isDigit || c == '+' || c == '-' || c == '.'

/-- The five fields of urllib.parse.urlsplit. -/
structure UrlParts where
  scheme : String
  netloc : String
  path : String
  query : String
  fragment : String
deriving Repr, DecidableEq

/-- urllib.parse.urlsplit: strip scheme, then netloc after a leading
double slash, then fragment after the first hash, then query after the
first question mark; the rest is the path. -/
def urlsplit (url : String) : UrlParts :=
  let u0 := url.toList
  let u1 :=
    match u0.findIdx? (fun c => c == ':') with
    | some i =>
      if decide (0 < i) && (match u0.head? with | some c => c.isAlpha | none => false)
         && (u0.take i).all isSchemeChar
      then u0.drop (i + 1)
      else u0
    | none => u0
  let scheme := u0.take (u0.length - u1.length - 1)
  let (netloc, u2) :=
    if u1.take 2 = ['/', '/'] then
      let rest := u1.drop 2
      let nl := rest.takeWhile (fun c => !(c == '/' || c == '?' || c == '#'))
      (nl, rest.drop nl.length)
    else ([], u1)
  let (u3, frag) :=
    match u2.findIdx? (fun c => c == '#') with
    | some i => (u2.take i, u2.drop (i + 1))
    | none => (u2, [])
  let (path, query) :=
    match u3.findIdx? (fun c => c == '?') with
    | some i => (u3.take i, u3.drop (i + 1))
    | none => (u3, [])
  ⟨(scheme.map Char.toLower).asString, netloc.asString, path.asString,
    query.asString, frag.asString⟩

/-- Python format spec 03d for a non-negative integer: decimal digits,
left-padded with zeros to at least width 3. -/
def pad3 (i : Nat) : String :=
  let s := toString i
  (List.replicate (3 - s.length) '0').asString ++ s

/-- The base variable of filename_from_url: the basename of the URL path,
with image substituted when it is empty. -/
def urlBase (url : String) : List Char :=
  if afterLastSlash (urlsplit url).path.toList = [] then "image".toList
  else afterLastSlash (urlsplit url).path.toList

/-- The name part of filename_from_url: the sanitized stem, truncated to 40
characters. -/
def fn_stem (base : List Char) : List Char :=
  (sanitize_name (splitExt base).1.asString).toList.take 40

/-- The extension part of filename_from_url: the lower-cased extension, with
.img substituted when absent or longer than 10 characters. -/
def fn_ext (base : List Char) : List Char :=
  if (splitExt base).2.map Char.toLower = [] ∨
      10 < ((splitExt base).2.map Char.toLower).length
  then ".img".toList else (splitExt base).2.map Char.toLower

/-- filename_from_url: index, underscore, sanitized and truncated stem,
lower-cased extension with .img substituted when absent or over 10 chars. -/
def filename_from_url (url : String) (index : Nat) : String :=
  pad3 index ++ "_" ++ (fn_stem (urlBase url)).asString ++ (fn_ext (urlBase url)).asString

/-- Stem as the claim words it: the basename ASCII-sanitized and truncated to
40 characters, image when the basename is empty. -/
def claim_stem (b : List Char) : List Char :=
  (sanitize_name (if b = [] then "image".toList else (splitExt b).1).asString).toList.take 40

/-- Extension as the claim words it: the basename extension lower-cased, with
.img when the extension is absent or longer than 10 characters. -/
def claim_ext (b : List Char) : List Char :=
  if ((if b = [] then [] else (splitExt b).2).map Char.toLower) = [] ∨
      10 < (((if b = [] then [] else (splitExt b).2)).map Char.toLower).length
  then ".img".toList
  else (if b = [] then [] else (splitExt b).2).map Char.toLower

/-- The filename as the claim words it: 3-digit zero-padded index, underscore,
stem, extension, all derived from the basename of the URL path. -/
def claim_filename (url : String) (i : Nat) : String :=
  pad3 i ++ "_" ++ (claim_stem (afterLastSlash (urlsplit url).path.toList)).asString
    ++ (claim_ext (afterLastSlash (urlsplit url).path.toList)).asString

theorem sanitize_name_toList_ne_nil (s : String) : (sanitize_name s).toList ≠ [] := by
  unfold sanitize_name
  split
  · decide
  · next h => exact h

theorem fn_stem_eq_claim (url : String) :
    fn_stem (urlBase url) = claim_stem (afterLastSlash (urlsplit url).path.toList) := by
  unfold urlBase claim_stem fn_stem
  by_cases hb : afterLastSlash (urlsplit url).path.toList = []
  · have hx : splitExt ("image".toList) = ("image".toList, []) := by decide
    simp only [if_pos hb, hx]
  · simp only [if_neg hb]

theorem fn_ext_eq_claim (url : String) :
    fn_ext (urlBase url) = claim_ext (afterLastSlash (urlsplit url).path.toList) := by
  unfold urlBase claim_ext fn_ext
  by_cases hb : afterLastSlash (urlsplit url).path.toList = []
  · have hx : splitExt ("image".toList) = ("image".toList, []) := by decide
    simp only [if_pos hb, hx]
  · simp only [if_neg hb]

theorem filename_parts (b : List Char) (i : Nat) :
    ∃ s e : List Char,
      (pad3 i ++ "_" ++ (fn_stem b).asString ++ (fn_ext b).asString).toList
        = (pad3 i).toList ++ '_' :: (s ++ e)
      ∧ s ≠ [] ∧ s.length ≤ 40
      ∧ (e = ".img".toList ∨
          (e = (splitExt b).2.map Char.toLower ∧ e ≠ [] ∧ e.length ≤ 10)) := by
  refine ⟨fn_stem b, fn_ext b, ?_, ?_, ?_, ?_⟩
  · simp only [String.toList, String.data_append, List.append_assoc]
    rfl
  · have h := sanitize_name_toList_ne_nil (splitExt b).1.asString
    unfold fn_stem
    intro hc
    rw [List.take_eq_nil_iff] at hc
    rcases hc with hc | hc
    · omega
    · exact h hc
  · simp [fn_stem]
  · unfold fn_ext
    split
    · exact Or.inl rfl
    · next h =>
      push_neg at h
      exact Or.inr ⟨rfl, h.1, by omega⟩

/-- C8: for every URL and index, the synthesized local filename agrees with
the claim formula (3-digit zero-padded index, underscore, sanitized stem
truncated to 40 characters with image for an empty basename, lower-cased
extension with .img for an absent or over-long extension), and it decomposes
as index, underscore, a non-empty stem of at most 40 characters, and either
the placeholder .img or the non-empty lower-cased extension of at most 10
characters. -/
theorem filename_from_url_spec (url : String) (i : Nat) :
    filename_from_url url i = claim_filename url i
  ∧ ∃ s e : List Char,
      (filename_from_url url i).toList = (pad3 i).toList ++ '_' :: (s ++ e)
      ∧ s ≠ [] ∧ s.length ≤ 40
      ∧ (e = ".img".toList ∨
          (e = (splitExt (urlBase url)).2.map Char.toLower ∧ e ≠ [] ∧ e.length ≤ 10)) :=
  ⟨by
    unfold filename_from_url claim_filename
    rw [fn_stem_eq_claim, fn_ext_eq_claim],
   filename_parts (urlBase url) i⟩

/-! ### The image tracker (ImageStats, ImageTracker.get_local) together with
download_image and its helpers. Paths are component lists. The outside world
(filesystem contents, network responses per candidate URL, the gh fallback,
and whether an OS rename succeeds) is an explicit environment. A successful
download carries the bytes that were written, so the later sniff reads them.
urlopen is modelled as atomic: an exception either yields no file or is a
missing response; a non-2xx status is an exception, and a 200 response is a
success whatever its body, exactly as in the source, where the write loop
simply writes whatever was read. -/

/-- os.path.relpath on component lists: length of the common prefix. -/
def commonLen : List String → List String → Nat
  | a :: as, b :: bs => if a = b then 1 + commonLen as bs else 0
  | _, _ => 0

/-- os.path.relpath on component lists: go up for each extra start
component, then down the remaining path components. -/
def relpathParts (path start : List String) : List String :=
  let n := commonLen path start
  let up := List.replicate (start.length - n) ".."
  if up ++ path.drop n = [] then ["."] else up ++ path.drop n

/-- os.path.relpath followed by the replace of os.sep with a forward
slash: join the components with a slash. -/
def relpathStr (path start : List String) : String :=
  String.intercalate "/" (relpathParts path start)

/-- pathlib suffix of a final path component: from the last dot, provided it
is neither the leading character nor the last one. -/
def pathSuffix (name : List Char) : List Char :=
  match rfindPos name '.' with
  | some i => if 0 < i ∧ i + 1 < name.length then name.drop i else []
  | none => []

/-- pathlib with_suffix on a final path component. -/
def withSuffix (name : List Char) (ext : List Char) : List Char :=
  match rfindPos name '.' with
  | some i => if 0 < i ∧ i + 1 < name.length then name.take i ++ ext else name ++ ext
  | none => name ++ ext

/-- Python substring containment, pat in text. -/
def containsSub : List Char → List Char → Bool
  | pat, [] => pat.isEmpty
  | pat, c :: cs => pat.isPrefixOf (c :: cs) || containsSub pat cs

/-- The world outside the exporter: filesystem, network, gh client, OS. -/
structure ExportEnv where
  fileExists : List String → Bool
  fileContent : List String → List Nat
  fetch : String → Option (List Nat)
  gh : String → Option (List Nat)
  renameOk : List String → Bool

/-- _is_user_attachment: a github.com user-attachments asset URL. -/
def is_user_attachment (url : String) : Bool :=
  let parsed := urlsplit url
  (parsed.netloc.toList.map Char.toLower).asString == "github.com"
    && ("/user-attachments/assets/".toList.isPrefixOf parsed.path.toList)

/-- _candidate_urls: for github.com user-attachment assets without a
download=1 query, also try the URL with download=1 appended. -/
def candidate_urls (url : String) : List String :=
  let parsed := urlsplit url
  if is_user_attachment url && !(containsSub "download=1".toList parsed.query.toList)
  then [url, url ++ (if parsed.query ≠ "" then "&" else "?") ++ "download=1"]
  else [url]

/-- The for loop of download_image over candidate URLs: first successful
urlopen wins and its body is written to the target file. -/
def firstFetch (env : ExportEnv) : List String → Option (List Nat)
  | [] => none
  | c :: cs =>
    match env.fetch c with
    | some body => some body
    | none => firstFetch env cs

/-- download_image: an existing target file short-circuits to success; then
each candidate URL is tried; then, for user-attachment URLs only, the gh api
fallback, which counts as success only when it wrote a non-empty file.
Returns the bytes of the target file on success. -/
def download_image (env : ExportEnv) (url : String) (path : List String) :
    Option (List Nat) :=
  if env.fileExists path then some (env.fileContent path)
  else
    match firstFetch env (candidate_urls url) with
    | some body => some body
    | none =>
      if is_user_attachment url then
        match env.gh url with
        | some b => if b ≠ [] then some b else none
        | none => none
      else none

/-- ImageStats counters. The missing list the class also declares is never
touched by the exporter (records go through the callback) and is omitted. -/
structure ImageStats where
  attempted : Nat
  downloaded : Nat
  failed : Nat
deriving Repr, DecidableEq

/-- The mutable state of one ImageTracker plus the record list the
caller-supplied missing_cb appends to. -/
structure TrackerState where
  counter : Nat
  url_to_rel : List (String × String)
  stats : ImageStats
  emitted : List (String × String)
deriving Repr, DecidableEq

/-- The constructor arguments of ImageTracker that never change: the assets
directory, the directory of the Markdown file, and whether a missing_cb was
supplied (every call site supplies one). -/
structure TrackerCfg where
  assets_dir : List String
  md_dir : List String
  hasCb : Bool

/-- Dict lookup in url_to_rel. -/
def lookupRel (m : List (String × String)) (u : String) : Option String :=
  (m.find? (fun p => p.1 == u)).map (fun p => p.2)

/-- ImageTracker.get_local: cache hit returns the stored path unchanged;
otherwise allocate the next index, build the filename, attempt the download,
and either record a failure (callback, failed counter, synthesized relative
path) or a success (sniff and rename when the placeholder extension was
used, downloaded counter), caching the resulting relative path. -/
def get_local (env : ExportEnv) (cfg : TrackerCfg) (url : String)
    (st : TrackerState) : String × TrackerState :=
  match lookupRel st.url_to_rel url with
  | some rel => (rel, st)
  | none =>
    let counter := st.counter + 1
    let stats1 : ImageStats := { st.stats with attempted := st.stats.attempted + 1 }
    let filename := filename_from_url url counter
    let abs_path := cfg.assets_dir ++ [filename]
    match download_image env url abs_path with
    | none =>
      let rel := relpathStr abs_path cfg.md_dir
      (rel, { counter := counter,
              url_to_rel := st.url_to_rel ++ [(url, rel)],
              stats := { stats1 with failed := stats1.failed + 1 },
              emitted := if cfg.hasCb then st.emitted ++ [(url, rel)] else st.emitted })
    | some body =>
      let abs_path2 :=
        if (pathSuffix filename.toList).map Char.toLower = ".img".toList then
          match detect_ext body with
          | some real_ext =>
            if env.renameOk (cfg.assets_dir ++ [(withSuffix filename.toList real_ext.toList).asString])
            then cfg.assets_dir ++ [(withSuffix filename.toList real_ext.toList).asString]
            else abs_path
          | none => abs_path
        else abs_path
      let rel := relpathStr abs_path2 cfg.md_dir
      (rel, { counter := counter,
              url_to_rel := st.url_to_rel ++ [(url, rel)],
              stats := { stats1 with downloaded := stats1.downloaded + 1 },
              emitted := st.emitted })

theorem lookupRel_append_of_none {l : List (String × String)} {u : String}
    (h : lookupRel l u = none) (r : String) :
    lookupRel (l ++ [(u, r)]) u = some r := by
  unfold lookupRel at *
  rw [List.find?_append]
  cases hf : List.find? (fun p => p.1 == u) l with
  | none => simp
  | some q => rw [hf] at h; simp at h

theorem lookupRel_append_of_some {l : List (String × String)} {u : String} {r : String}
    (h : lookupRel l u = some r) (p : String × String) :
    lookupRel (l ++ [p]) u = some r := by
  unfold lookupRel at *
  rw [List.find?_append]
  cases hf : List.find? (fun p => p.1 == u) l with
  | none => rw [hf] at h; simp at h
  | some q => rw [hf] at h; simpa using h

theorem get_local_cache_hit (env : ExportEnv) (cfg : TrackerCfg) (url : String)
    {st : TrackerState} {r : String}
    (hr : lookupRel st.url_to_rel url = some r) :
    get_local env cfg url st = (r, st) := by
  unfold get_local
  simp [hr]

theorem get_local_caches (env : ExportEnv) (cfg : TrackerCfg) (url : String)
    (st : TrackerState) :
    lookupRel ((get_local env cfg url st).2).url_to_rel url
      = some (get_local env cfg url st).1 := by
  unfold get_local
  match hl : lookupRel st.url_to_rel url with
  | some rel => simp [hl]
  | none =>
    match hd : download_image env url
        (cfg.assets_dir ++ [filename_from_url url (st.counter + 1)]) with
    | none => simp [hl, hd, lookupRel_append_of_none hl]
    | some body => simp [hl, hd, lookupRel_append_of_none hl]

/-- C1: once get_local has resolved a URL on a tracker instance, the cache
holds the returned path; a call with a cached URL returns the stored path and
changes nothing (no download attempt, no counter change, no sniff); resolving
any other URL preserves the cache entry; hence a second call right after a
first returns the identical path and leaves the whole state, in particular
the attempted counter, unchanged, while the first call on an uncached URL
made exactly one download attempt. -/
theorem get_local_idempotent (env : ExportEnv) (cfg : TrackerCfg) (url u2 : String)
    (st : TrackerState) :
    (lookupRel ((get_local env cfg url st).2).url_to_rel url
       = some (get_local env cfg url st).1)
  ∧ (∀ r, lookupRel st.url_to_rel url = some r →
       get_local env cfg url st = (r, st))
  ∧ (∀ r, lookupRel st.url_to_rel url = some r →
       lookupRel ((get_local env cfg u2 st).2).url_to_rel url = some r)
  ∧ (get_local env cfg url ((get_local env cfg url st).2) = get_local env cfg url st)
  ∧ ((get_local env cfg url ((get_local env cfg url st).2)).2.stats.attempted
       = ((get_local env cfg url st).2).stats.attempted)
  ∧ (lookupRel st.url_to_rel url = none →
       ((get_local env cfg url st).2).stats.attempted = st.stats.attempted + 1) := by
  have key := get_local_caches env cfg url st
  have pres : ∀ r, lookupRel st.url_to_rel url = some r →
      lookupRel ((get_local env cfg u2 st).2).url_to_rel url = some r := by
    intro r hr
    unfold get_local
    match hl : lookupRel st.url_to_rel u2 with
    | some rel => simp [hl, hr]
    | none =>
      match hd : download_image env u2
          (cfg.assets_dir ++ [filename_from_url u2 (st.counter + 1)]) with
      | none => simp [hl, hd, lookupRel_append_of_some hr]
      | some body => simp [hl, hd, lookupRel_append_of_some hr]
  have second : get_local env cfg url ((get_local env cfg url st).2)
      = get_local env cfg url st :=
    (get_local_cache_hit env cfg url key).trans (Prod.mk.eta)
  refine ⟨key, fun r hr => get_local_cache_hit env cfg url hr, pres, second,
    by rw [second], ?_⟩
  intro hl
  unfold get_local
  match hd : download_image env url
      (cfg.assets_dir ++ [filename_from_url url (st.counter + 1)]) with
  | none => simp [hl, hd]
  | some body => simp [hl, hd]

/-- C10: a cache-hit call leaves the counters unchanged; a cache-miss call
increments attempted by one and exactly one of downloaded or failed by one;
therefore the invariant attempted = downloaded + failed is preserved by every
call. -/
theorem get_local_stats_invariant (env : ExportEnv) (cfg : TrackerCfg)
    (url : String) (st : TrackerState) :
    (∀ r, lookupRel st.url_to_rel url = some r →
        ((get_local env cfg url st).2).stats = st.stats)
  ∧ (lookupRel st.url_to_rel url = none →
        ((get_local env cfg url st).2).stats.attempted = st.stats.attempted + 1
      ∧ ((((get_local env cfg url st).2).stats.downloaded = st.stats.downloaded + 1
           ∧ ((get_local env cfg url st).2).stats.failed = st.stats.failed)
         ∨ (((get_local env cfg url st).2).stats.failed = st.stats.failed + 1
           ∧ ((get_local env cfg url st).2).stats.downloaded = st.stats.downloaded)))
  ∧ (st.stats.attempted = st.stats.downloaded + st.stats.failed →
        ((get_local env cfg url st).2).stats.attempted
          = ((get_local env cfg url st).2).stats.downloaded
            + ((get_local env cfg url st).2).stats.failed) := by
  refine ⟨?_, ?_, ?_⟩
  · intro r hr
    rw [get_local_cache_hit env cfg url hr]
  · intro hl
    unfold get_local
    match hd : download_image env url
        (cfg.assets_dir ++ [filename_from_url url (st.counter + 1)]) with
    | none => simp [hl, hd]
    | some body => simp [hl, hd]
  · intro hsum
    cases hcase : lookupRel st.url_to_rel url with
    | some r =>
      rw [get_local_cache_hit env cfg url hcase]
      exact hsum
    | none =>
      unfold get_local
      match hd : download_image env url
          (cfg.assets_dir ++ [filename_from_url url (st.counter + 1)]) with
      | none => simp [hcase, hd]; omega
      | some body => simp [hcase, hd]; omega

/-- C3 (amended): when download_image reports failure, get_local increments
the failure counter (and attempted, leaving downloaded unchanged), still
returns the synthesized relative path built from the deterministic filename
of the freshly allocated index, caches it, and emits exactly one
missing-attachment record with that same URL and path. -/
theorem get_local_failure_path (env : ExportEnv) (cfg : TrackerCfg) (url : String)
    (st : TrackerState)
    (hl : lookupRel st.url_to_rel url = none)
    (hd : download_image env url
        (cfg.assets_dir ++ [filename_from_url url (st.counter + 1)]) = none)
    (hcb : cfg.hasCb = true) :
    (get_local env cfg url st).1
      = relpathStr (cfg.assets_dir ++ [filename_from_url url (st.counter + 1)]) cfg.md_dir
  ∧ ((get_local env cfg url st).2).stats.failed = st.stats.failed + 1
  ∧ ((get_local env cfg url st).2).stats.attempted = st.stats.attempted + 1
  ∧ ((get_local env cfg url st).2).stats.downloaded = st.stats.downloaded
  ∧ ((get_local env cfg url st).2).emitted
      = st.emitted ++ [(url, (get_local env cfg url st).1)]
  ∧ ((get_local env cfg url st).2).url_to_rel
      = st.url_to_rel ++ [(url, (get_local env cfg url st).1)] := by
  unfold get_local
  simp [hl, hd, hcb]

/-- A world with no filesystem, no network and no gh client. -/
def envW : ExportEnv :=
  { fileExists := fun _ => false,
    fileContent := fun _ => [],
    fetch := fun _ => none,
    gh := fun _ => none,
    renameOk := fun _ => true }

/-- The tracker configuration of a write_issue_md call for issue 1. -/
def cfgW : TrackerCfg :=
  { assets_dir := ["assets", "issues", "1"], md_dir := ["issues"], hasCb := true }

/-- A fresh tracker state. -/
def stW : TrackerState :=
  { counter := 0, url_to_rel := [], stats := ⟨0, 0, 0⟩, emitted := [] }

theorem get_local_idempotent_witness :
    (get_local envW cfgW "http://example.com/a.png"
        ((get_local envW cfgW "http://example.com/a.png" stW).2)
      = get_local envW cfgW "http://example.com/a.png" stW)
  ∧ ((get_local envW cfgW "http://example.com/a.png" stW).2).stats.attempted
      = stW.stats.attempted + 1 :=
  ⟨(get_local_idempotent envW cfgW "http://example.com/a.png" "x" stW).2.2.2.1,
   (get_local_idempotent envW cfgW "http://example.com/a.png" "x" stW).2.2.2.2.2 rfl⟩

theorem get_local_stats_invariant_witness :
    ((get_local envW cfgW "http://example.com/a.png" stW).2).stats.attempted
      = stW.stats.attempted + 1
  ∧ ((get_local envW cfgW "http://example.com/a.png" stW).2).stats.attempted
      = ((get_local envW cfgW "http://example.com/a.png" stW).2).stats.downloaded
        + ((get_local envW cfgW "http://example.com/a.png" stW).2).stats.failed :=
  ⟨((get_local_stats_invariant envW cfgW "http://example.com/a.png" stW).2.1 rfl).1,
   (get_local_stats_invariant envW cfgW "http://example.com/a.png" stW).2.2 rfl⟩

theorem get_local_failure_path_witness :
    ((get_local envW cfgW "http://example.com/a.png" stW).2).stats.failed
      = stW.stats.failed + 1
  ∧ ((get_local envW cfgW "http://example.com/a.png" stW).2).emitted
      = stW.emitted ++ [("http://example.com/a.png",
          (get_local envW cfgW "http://example.com/a.png" stW).1)] :=
  ⟨(get_local_failure_path envW cfgW "http://example.com/a.png" stW rfl rfl rfl).2.1,
   (get_local_failure_path envW cfgW "http://example.com/a.png" stW rfl rfl rfl).2.2.2.2.1⟩

/-- A world where the only URL answers 200 with an empty body. -/
def envEmptyBody : ExportEnv :=
  { fileExists := fun _ => false,
    fileContent := fun _ => [],
    fetch := fun u => if u = "http://example.com/a.png" then some [] else none,
    gh := fun _ => none,
    renameOk := fun _ => true }

/-- C3 counterexample: a 200 response with an empty body counts as a
successful download in the code, because the write loop just writes whatever
was read and download_image then returns True: the downloaded counter is
incremented, the failed counter stays 0 and no missing-attachment record is
emitted, where the claim demands a failure count and a missing-attachment
record for an empty body. -/
theorem get_local_empty_body_counterexample :
    envEmptyBody.fetch "http://example.com/a.png" = some []
  ∧ (get_local envEmptyBody cfgW "http://example.com/a.png" stW).2.stats
      = { attempted := 1, downloaded := 1, failed := 0 }
  ∧ (get_local envEmptyBody cfgW "http://example.com/a.png" stW).2.emitted = [] := by
  refine ⟨rfl, ?_, ?_⟩ <;> rfl

/-! ### Comment sorting (parse_iso, sort_comments). A comment is its two
possible creation-timestamp fields (absent keys are none) plus a payload.
datetime.fromisoformat composed with timestamp is an oracle returning none
when parsing raises; parse_iso maps the empty string and a parse failure to
the float inf key, modelled as none with none ordered after every some. -/

/-- A raw comment object: the two timestamp spellings the code probes and a
payload distinguishing comments. -/
structure Comment where
  created_at : Option String
  createdAt : Option String
  body : String
  id : Nat
deriving Repr, DecidableEq

/-- Python x or y over optional strings, None and the empty string falsy. -/
def pyOrStr : Option String → Option String → Option String
  | some s, b => if s = "" then b else some s
  | none, b => b

/-- The expression c.get two ways with an empty-string default. -/
def commentCreated (c : Comment) : String :=
  (pyOrStr c.created_at (pyOrStr c.createdAt (some ""))).getD ""

/-- str.replace: replace every non-overlapping occurrence, scanning left to
right. The pattern is non-empty at every use site. -/
def replaceAllAux (pat rep : List Char) : Nat → List Char → List Char
  | 0, s => s
  | _, [] => []
  | fuel + 1, c :: cs =>
    if pat.isPrefixOf (c :: cs) then rep ++ replaceAllAux pat rep fuel ((c :: cs).drop pat.length)
    else c :: replaceAllAux pat rep fuel cs

/-- str.replace on strings. -/
def replaceAllStr (s pat rep : String) : String :=
  if pat.toList = [] then s
  else (replaceAllAux pat.toList rep.toList s.toList.length s.toList).asString

/-- parse_iso reduced to its sort key: none for the empty string and for a
parse failure (the float inf), the parsed timestamp otherwise; a trailing Z
makes the code replace every Z with +00:00 before parsing. -/
def parse_iso_ts (fromiso : String → Option Int) (dt : String) : Option Int :=
  if dt = "" then none
  else if dt.endsWith "Z" then fromiso (replaceAllStr dt "Z" "+00:00")
  else fromiso dt

/-- The sort key of one comment. -/
def commentKey (fromiso : String → Option Int) (c : Comment) : Option Int :=
  parse_iso_ts fromiso (commentCreated c)

/-- Strictly less on keys, none being the float inf. -/
def keyLtB : Option Int → Option Int → Bool
  | none, _ => false
  | some _, none => true
  | some a, some b => decide (a < b)

/-- Less-or-equal on keys, none being the float inf. -/
def keyLeB : Option Int → Option Int → Bool
  | _, none => true
  | none, some _ => false
  | some a, some b => decide (a ≤ b)

/-- Lexicographic comparison of the Python sort key (ts, idx). -/
def lexLe (a b : Option Int × Nat × Comment) : Bool :=
  keyLtB a.1 b.1 || (decide (a.1 = b.1) && decide (a.2.1 ≤ b.2.1))

/-- sort_comments: enumerate, key by (parsed timestamp, input position),
sort, strip the keys. -/
def sort_comments (fromiso : String → Option Int) (comments : List Comment) :
    List Comment :=
  ((comments.enum.map
      (fun p => (commentKey fromiso p.2, p.1, p.2))).mergeSort lexLe).map
    (fun t => t.2.2)

theorem keyLtB_keyLeB {a b : Option Int} (h : keyLtB a b = true) : keyLeB a b = true := by
  cases a <;> cases b <;> simp_all [keyLtB, keyLeB] <;> omega

theorem keyLeB_refl (a : Option Int) : keyLeB a a = true := by
  cases a <;> simp [keyLeB]

theorem lexLe_trans (a b c : Option Int × Nat × Comment)
    (h1 : lexLe a b) (h2 : lexLe b c) : lexLe a c := by
  rcases a with ⟨ka, ia, _⟩
  rcases b with ⟨kb, ib, _⟩
  rcases c with ⟨kc, ic, _⟩
  simp only [lexLe, Bool.or_eq_true, Bool.and_eq_true, decide_eq_true_eq] at *
  cases ka <;> cases kb <;> cases kc <;> simp_all [keyLtB] <;> omega

theorem lexLe_total (a b : Option Int × Nat × Comment) :
    lexLe a b || lexLe b a := by
  rcases a with ⟨ka, ia, _⟩
  rcases b with ⟨kb, ib, _⟩
  simp only [lexLe, Bool.or_eq_true, Bool.and_eq_true, decide_eq_true_eq]
  cases ka <;> cases kb <;> simp_all [keyLtB] <;> omega

theorem pairwise_fst_lt_enumFrom {α : Type _} (n : Nat) (l : List α) :
    (List.enumFrom n l).Pairwise (fun a b => a.1 < b.1) := by
  induction l generalizing n with
  | nil => simp
  | cons x xs ih =>
    refine List.Pairwise.cons ?_ (ih (n + 1))
    intro b hb
    have := List.mem_enumFrom hb
    simp only at this
    omega

theorem idxList_fst_eq (fromiso : String → Option Int) (l : List Comment) :
    ∀ t ∈ l.enum.map (fun p => (commentKey fromiso p.2, p.1, p.2)),
      t.1 = commentKey fromiso t.2.2 := by
  intro t ht
  rcases List.mem_map.mp ht with ⟨p, hp, rfl⟩
  rfl

theorem idxList_map_snd (fromiso : String → Option Int) (l : List Comment) :
    (l.enum.map (fun p => (commentKey fromiso p.2, p.1, p.2))).map (fun t => t.2.2) = l := by
  rw [List.map_map]
  exact l.enum_map_snd

theorem idxList_pairwise_idx (fromiso : String → Option Int) (l : List Comment) :
    (l.enum.map (fun p => (commentKey fromiso p.2, p.1, p.2))).Pairwise
      (fun a b => a.2.1 < b.2.1) := by
  rw [List.pairwise_map]
  exact pairwise_fst_lt_enumFrom 0 l

/-- C4: sort_comments returns a permutation of its input, ordered
non-decreasingly by parsed creation timestamp with every unparseable or
missing timestamp (key none) after all parseable ones, and for every key
value the comments carrying that key appear in their original input order
(stability; in particular the unparseable comments keep their relative
order among themselves). -/
theorem sort_comments_spec (fromiso : String → Option Int) (l : List Comment) :
    (sort_comments fromiso l).Perm l
  ∧ (sort_comments fromiso l).Pairwise
      (fun a b => keyLeB (commentKey fromiso a) (commentKey fromiso b) = true)
  ∧ (sort_comments fromiso l).Pairwise
      (fun a b => commentKey fromiso a = none → commentKey fromiso b = none)
  ∧ ∀ k : Option Int,
      (sort_comments fromiso l).filter (fun c => decide (commentKey fromiso c = k))
        = l.filter (fun c => decide (commentKey fromiso c = k)) := by
  set idx := l.enum.map (fun p => (commentKey fromiso p.2, p.1, p.2)) with hidx
  have hfst := idxList_fst_eq fromiso l
  rw [← hidx] at hfst
  have hsnd := idxList_map_snd fromiso l
  rw [← hidx] at hsnd
  have hpidx := idxList_pairwise_idx fromiso l
  rw [← hidx] at hpidx
  have hperm : (idx.mergeSort lexLe).Perm idx := List.mergeSort_perm idx lexLe
  have hsorted : (idx.mergeSort lexLe).Pairwise (fun a b => lexLe a b = true) :=
    List.sorted_mergeSort lexLe_trans lexLe_total idx
  have hmem : ∀ t ∈ idx.mergeSort lexLe, t.1 = commentKey fromiso t.2.2 := by
    intro t ht
    exact hfst t (List.mem_mergeSort.mp ht)
  have hsc : sort_comments fromiso l = (idx.mergeSort lexLe).map (fun t => t.2.2) := rfl
  refine ⟨?_, ?_, ?_, ?_⟩
  · rw [hsc]
    calc ((idx.mergeSort lexLe).map (fun t => t.2.2)).Perm (idx.map (fun t => t.2.2)) :=
          hperm.map _
      _ = l := hsnd
  · rw [hsc, List.pairwise_map]
    refine List.Pairwise.imp_of_mem ?_ hsorted
    intro a b ha hb hab
    have hka := hmem a ha
    have hkb := hmem b hb
    rw [← hka, ← hkb]
    simp only [lexLe, Bool.or_eq_true, Bool.and_eq_true, decide_eq_true_eq] at hab
    rcases hab with h | ⟨h, _⟩
    · exact keyLtB_keyLeB h
    · rw [h]
      exact keyLeB_refl _
  · rw [hsc, List.pairwise_map]
    refine List.Pairwise.imp_of_mem ?_ hsorted
    intro a b ha hb hab hna
    have hka := hmem a ha
    have hkb := hmem b hb
    rw [← hka] at hna
    rw [← hkb]
    simp only [lexLe, Bool.or_eq_true, Bool.and_eq_true, decide_eq_true_eq] at hab
    rcases hab with h | ⟨h, _⟩
    · rw [hna] at h
      cases hk : b.1 <;> simp_all [keyLtB]
    · rw [← h, hna]
  · intro k
    have hstep : (idx.mergeSort lexLe).filter
        (fun t => decide (commentKey fromiso t.2.2 = k)) =
        idx.filter (fun t => decide (commentKey fromiso t.2.2 = k)) := by
      set p : Option Int × Nat × Comment → Bool :=
        fun t => decide (commentKey fromiso t.2.2 = k) with hp
      have hpw : (idx.filter p).Pairwise (fun a b => lexLe a b = true) := by
        have base : (idx.filter p).Pairwise (fun a b => a.2.1 < b.2.1) :=
          hpidx.sublist (List.filter_sublist idx)
        refine List.Pairwise.imp_of_mem ?_ base
        intro a b ha hb hab
        have hma := List.mem_of_mem_filter ha
        have hmb := List.mem_of_mem_filter hb
        have hpa := List.of_mem_filter ha
        have hpb := List.of_mem_filter hb
        rw [hp] at hpa hpb
        simp only [decide_eq_true_eq] at hpa hpb
        have hka := hfst a hma
        have hkb := hfst b hmb
        simp only [lexLe, Bool.or_eq_true, Bool.and_eq_true, decide_eq_true_eq]
        right
        refine ⟨?_, by omega⟩
        rw [hka, hkb, hpa, hpb]
      have hself : (idx.filter p).filter p = idx.filter p := by
        rw [List.filter_filter]
        apply List.filter_congr
        intro a _
        cases p a <;> rfl
      have hsub : List.Sublist (idx.filter p) (idx.mergeSort lexLe) := by
        have h1 : List.Sublist ((idx.filter p).filter p)
            ((idx.mergeSort lexLe).filter p) :=
          (List.sublist_mergeSort lexLe_trans lexLe_total hpw
            (List.filter_sublist idx)).filter p
        rw [hself] at h1
        exact h1.trans (List.filter_sublist _)
      have hlen : ((idx.mergeSort lexLe).filter p).length = (idx.filter p).length :=
        (hperm.filter p).length_eq
      have hsub2 : List.Sublist (idx.filter p) ((idx.mergeSort lexLe).filter p) := by
        have h1 := hsub.filter p
        rwa [hself] at h1
      exact (hsub2.eq_of_length hlen.symm).symm
    rw [hsc, ← hsnd, List.filter_map, List.filter_map]
    refine congrArg (List.map _) ?_
    have e1 : List.filter
        ((fun c => decide (commentKey fromiso c = k)) ∘ fun t : Option Int × Nat × Comment => t.2.2)
        (idx.mergeSort lexLe)
        = List.filter (fun t => decide (commentKey fromiso t.2.2 = k)) (idx.mergeSort lexLe) :=
      List.filter_congr (fun a _ => rfl)
    have e2 : List.filter
        ((fun c => decide (commentKey fromiso c = k)) ∘ fun t : Option Int × Nat × Comment => t.2.2)
        idx
        = List.filter (fun t => decide (commentKey fromiso t.2.2 = k)) idx :=
      List.filter_congr (fun a _ => rfl)
    rw [e1, e2, hstep]

/-! ### replace_images. One IMG_PATTERN match is its full snippet plus the
three URL capture groups; re.sub with a replacement function is modelled on
the decomposition of the text into alternating literal gaps and matches, the
replacement of each match being computed left to right with the tracker
state threaded through, exactly as the source repl closure does. -/

/-- One IMG_PATTERN match: full matched snippet, md_url, html_url and
html_url_unq capture groups; a group that did not participate is none. -/
structure ImgMatch where
  group0 : String
  md_url : Option String
  html_url : Option String
  html_url_unq : Option String
deriving Repr, DecidableEq

/-- url = m.group md_url or m.group html_url or m.group html_url_unq. -/
def imgMatchUrl (m : ImgMatch) : Option String :=
  pyOrStr m.md_url (pyOrStr m.html_url m.html_url_unq)

/-- str.replace with count 1: replace the leftmost occurrence only. -/
def replaceFirstAux (pat rep : List Char) : Nat → List Char → List Char
  | 0, s => s
  | _, [] => []
  | fuel + 1, c :: cs =>
    if pat.isPrefixOf (c :: cs) then rep ++ (c :: cs).drop pat.length
    else c :: replaceFirstAux pat rep fuel cs

/-- str.replace with count 1 on strings; the pattern is non-empty whenever
the source calls it. -/
def replaceFirstStr (s pat rep : String) : String :=
  if pat.toList = [] then s
  else (replaceFirstAux pat.toList rep.toList s.toList.length s.toList).asString

/-- str.startswith. -/
def strStarts (s pre : String) : Bool :=
  pre.toList.isPrefixOf s.toList

/-- The repl closure of replace_images: a missing or empty URL, a data: URL
and a URL that is neither http:// nor https:// reproduce the matched snippet
unchanged without touching the tracker; otherwise the URL is resolved
through the tracker and its first occurrence inside the snippet is replaced
by the local path. -/
def repl (env : ExportEnv) (cfg : TrackerCfg) (m : ImgMatch) (st : TrackerState) :
    String × TrackerState :=
  match imgMatchUrl m with
  | none => (m.group0, st)
  | some url =>
    if url = "" then (m.group0, st)
    else if strStarts url "data:" then (m.group0, st)
    else if !strStarts url "http://" && !strStarts url "https://" then (m.group0, st)
    else
      let r := get_local env cfg url st
      (replaceFirstStr m.group0 url r.1, r.2)

/-- IMG_PATTERN.sub with the repl closure, over the gap/match decomposition
of the text; the trailing literal gap closes the fold. -/
def replace_images (env : ExportEnv) (cfg : TrackerCfg) :
    List (String × ImgMatch) → String → TrackerState → String × TrackerState
  | [], tl, st => (tl, st)
  | (gap, m) :: rest, tl, st =>
    let p := repl env cfg m st
    let r := replace_images env cfg rest tl p.2
    (gap ++ p.1 ++ r.1, r.2)

/-- The URLs the caller leaves untouched: absent or empty, data: scheme, or
not an absolute http/https URL. -/
def imgExcluded (m : ImgMatch) : Bool :=
  match imgMatchUrl m with
  | none => true
  | some url =>
    url == "" || strStarts url "data:"
      || (!strStarts url "http://" && !strStarts url "https://")

theorem repl_excluded (env : ExportEnv) (cfg : TrackerCfg) (m : ImgMatch)
    (st : TrackerState) (hex : imgExcluded m = true) :
    repl env cfg m st = (m.group0, st) := by
  unfold imgExcluded at hex
  unfold repl
  match hu : imgMatchUrl m with
  | none => rfl
  | some url =>
    rw [hu] at hex
    simp only [Bool.or_eq_true, beq_iff_eq] at hex
    rcases hex with (h | h) | h
    · simp [h]
    · simp [h]
    · by_cases h0 : url = ""
      · simp [h0]
      · by_cases h1 : strStarts url "data:" = true
        · simp [h0, h1]
        · simp [h0, h1, h]

/-- C7: a matched image reference whose URL is missing or empty, starts with
data:, or does not start with http:// or https:// passes through re.sub
byte-for-byte unchanged with no tracker state change and no download
attempt, and the literal text before it (outside any match) also passes
through unchanged; the text after the final match is reproduced verbatim as
well. -/
theorem replace_images_frame (env : ExportEnv) (cfg : TrackerCfg) (gap : String)
    (m : ImgMatch) (rest : List (String × ImgMatch)) (tl : String)
    (st : TrackerState) (hex : imgExcluded m = true) :
    replace_images env cfg ((gap, m) :: rest) tl st
      = (gap ++ m.group0 ++ (replace_images env cfg rest tl st).1,
         (replace_images env cfg rest tl st).2)
  ∧ repl env cfg m st = (m.group0, st)
  ∧ replace_images env cfg [] tl st = (tl, st) := by
  have hr := repl_excluded env cfg m st hex
  refine ⟨?_, hr, rfl⟩
  show (let p := repl env cfg m st
        let r := replace_images env cfg rest tl p.2
        (gap ++ p.1 ++ r.1, r.2)) = _
  rw [hr]

theorem replace_images_frame_witness :
    replace_images envW cfgW
        [("before ", ⟨"![a](data:image/png;base64,AAAA)", some "data:image/png;base64,AAAA",
          none, none⟩)] " after" stW
      = ("before " ++ "![a](data:image/png;base64,AAAA)" ++ " after", stW)
  ∧ repl envW cfgW ⟨"![a](data:image/png;base64,AAAA)", some "data:image/png;base64,AAAA",
      none, none⟩ stW
      = ("![a](data:image/png;base64,AAAA)", stW) := by
  have h := replace_images_frame envW cfgW "before "
    ⟨"![a](data:image/png;base64,AAAA)", some "data:image/png;base64,AAAA", none, none⟩
    [] " after" stW (by decide)
  exact ⟨h.1.trans (by rfl), h.2.1⟩

/-! ### find_related_issues and the ISSUE_FIX_PATTERN regex. The pattern
(?i)\b(?:fixe[sd]?|close[sd]?|resolve[sd]?)\s+(?:owner/repo)?#num is run by
finditer: non-overlapping matches scanning left to right. The matcher below
is the pattern specialized to this regex; the [sd]? option never needs
backtracking because the following \s+ can match neither s nor d, and the
greedy character-class runs never need it because the characters that follow
them in the pattern are outside the classes. Character classes are ASCII. -/

/-- Python regex word character, ASCII range. -/
def isWordCh (c : Char) : Bool := c.isAlpha || c.isDigit || c == '_'

/-- Python regex whitespace, ASCII range. -/
def isSpaceCh (c : Char) : Bool :=
  c == ' ' || c == '\t' || c == '\n' || c == '\r' || c == '\x0b' || c == '\x0c'

/-- The class of the owner and repo groups. -/
def isOwnerCh (c : Char) : Bool := isWordCh c || c == '.' || c == '-'

/-- Case-insensitive prefix test against a lower-case keyword. -/
def ciPre : List Char → List Char → Bool
  | [], _ => true
  | _ :: _, [] => false
  | k :: ks, c :: cs => (c.toLower == k) && ciPre ks cs

/-- The keyword alternation fixe[sd]?|close[sd]?|resolve[sd]? of
ISSUE_FIX_PATTERN: number of characters the keyword consumes. -/
def matchKeywordCode (cs : List Char) : Option Nat :=
  let base :=
    if ciPre "fixe".toList cs then some 4
    else if ciPre "close".toList cs then some 5
    else if ciPre "resolve".toList cs then some 7
    else none
  match base with
  | none => none
  | some n =>
    match (cs.drop n).head? with
    | some c => if c.toLower == 's' || c.toLower == 'd' then some (n + 1) else some n
    | none => some n

/-- The keywords as the claim words them: fixes, closes, resolves, each with
its singular and past-tense variant, longer variants first. -/
def matchKeywordClaim (cs : List Char) : Option Nat :=
  if ciPre "resolves".toList cs then some 8
  else if ciPre "resolved".toList cs then some 8
  else if ciPre "resolve".toList cs then some 7
  else if ciPre "closes".toList cs then some 6
  else if ciPre "closed".toList cs then some 6
  else if ciPre "close".toList cs then some 5
  else if ciPre "fixes".toList cs then some 5
  else if ciPre "fixed".toList cs then some 5
  else if ciPre "fix".toList cs then some 3
  else none

/-- The number value of a digit run. -/
def digitsToNat (l : List Char) : Nat :=
  l.foldl (fun acc c => 10 * acc + (c.toNat - '0'.toNat)) 0

/-- One match of ISSUE_FIX_PATTERN: the optional owner/repo groups and the
issue number. -/
structure FixMatch where
  ownerRepo : Option (String × String)
  num : Nat
deriving Repr, DecidableEq

/-- The pattern after the keyword: \s+ then the optional owner/repo group
then # then \d+. Returns the match data and the count of consumed
characters. -/
def matchAfterKeyword (cs : List Char) : Option (FixMatch × Nat) :=
  let ws := cs.takeWhile isSpaceCh
  if ws.length = 0 then none
  else
    let rest1 := cs.drop ws.length
    let run1 := rest1.takeWhile isOwnerCh
    let tryGroup : Option ((String × String) × Nat) :=
      if run1.length ≠ 0 then
        match (rest1.drop run1.length).head? with
        | some '/' =>
          let rest2 := rest1.drop (run1.length + 1)
          let run2 := rest2.takeWhile isOwnerCh
          if run2.length ≠ 0 then
            match (rest2.drop run2.length).head? with
            | some '#' => some ((run1.asString, run2.asString), run1.length + 1 + run2.length)
            | _ => none
          else none
        | _ => none
      else none
    match tryGroup with
    | some (orp, glen) =>
      let digits := (rest1.drop (glen + 1)).takeWhile (fun c => c.isDigit)
      if digits.length = 0 then none
      else some (⟨some orp, digitsToNat digits⟩, ws.length + glen + 1 + digits.length)
    | none =>
      match rest1.head? with
      | some '#' =>
        let digits := (rest1.drop 1).takeWhile (fun c => c.isDigit)
        if digits.length = 0 then none
        else some (⟨none, digitsToNat digits⟩, ws.length + 1 + digits.length)
      | _ => none

/-- A whole match attempt at one position, for a given keyword matcher. -/
def matchFixAtWith (kwm : List Char → Option Nat) (cs : List Char) :
    Option (FixMatch × Nat) :=
  match kwm cs with
  | none => none
  | some klen =>
    match matchAfterKeyword (cs.drop klen) with
    | none => none
    | some (m, r) => some (m, klen + r)

/-- finditer: scan left to right, check the word boundary against the
previous character, emit each match and resume after it. -/
def scanFixAux (matchAt : List Char → Option (FixMatch × Nat)) :
    Nat → Bool → List Char → List FixMatch
  | 0, _, _ => []
  | _ + 1, _, [] => []
  | fuel + 1, prevWord, c :: cs =>
    if prevWord != isWordCh c then
      match matchAt (c :: cs) with
      | some (m, k) => m :: scanFixAux matchAt fuel true ((c :: cs).drop k)
      | none => scanFixAux matchAt fuel (isWordCh c) cs
    else scanFixAux matchAt fuel (isWordCh c) cs

/-- All ISSUE_FIX_PATTERN matches of a body. -/
def scanFix (s : String) : List FixMatch :=
  scanFixAux (matchFixAtWith matchKeywordCode) s.toList.length false s.toList

/-- All matches with the claim keyword list. -/
def scanFixClaim (s : String) : List FixMatch :=
  scanFixAux (matchFixAtWith matchKeywordClaim) s.toList.length false s.toList

/-- str.lower, ASCII. -/
def strLower (s : String) : String := (s.toList.map Char.toLower).asString

/-- The owner/repo guard: when the groups are present they must match the
current repository case-insensitively. -/
def prefixOk (m : FixMatch) (owner repo : String) : Bool :=
  match m.ownerRepo with
  | some (o, r) => strLower o == strLower owner && strLower r == strLower repo
  | none => true

/-- find_related_issues: empty body short-circuits; otherwise collect into a
set each matched number whose owner/repo prefix (when present) names the
current repository and which is a known issue number, and return the set
sorted ascending. -/
def find_related_issues (pr_body : String) (issue_numbers : Finset ℕ)
    (owner repo : String) : List ℕ :=
  if pr_body = "" then []
  else
    ((scanFix pr_body).foldl (fun acc m =>
      if prefixOk m owner repo && decide (m.num ∈ issue_numbers)
      then insert m.num acc else acc) (∅ : Finset ℕ)).sort (· ≤ ·)

/-- The claim variant of find_related_issues, with the keyword list the
claim describes. -/
def find_related_issues_claim (pr_body : String) (issue_numbers : Finset ℕ)
    (owner repo : String) : List ℕ :=
  if pr_body = "" then []
  else
    ((scanFixClaim pr_body).foldl (fun acc m =>
      if prefixOk m owner repo && decide (m.num ∈ issue_numbers)
      then insert m.num acc else acc) (∅ : Finset ℕ)).sort (· ≤ ·)

theorem mem_foldl_insert (owner repo : String) (kn : Finset ℕ) (n : ℕ) :
    ∀ (ms : List FixMatch) (acc : Finset ℕ),
    (n ∈ ms.foldl (fun acc m =>
        if prefixOk m owner repo && decide (m.num ∈ kn)
        then insert m.num acc else acc) acc) ↔
      n ∈ acc ∨ ∃ m ∈ ms, prefixOk m owner repo = true ∧ m.num ∈ kn ∧ m.num = n := by
  intro ms
  induction ms with
  | nil => simp
  | cons m ms ih =>
    intro acc
    rw [List.foldl_cons]
    by_cases hc : prefixOk m owner repo && decide (m.num ∈ kn)
    · rw [if_pos hc, ih]
      simp only [Bool.and_eq_true, decide_eq_true_eq] at hc
      simp only [Finset.mem_insert, List.mem_cons]
      constructor
      · rintro ((h | ha) | hex)
        · exact Or.inr ⟨m, Or.inl rfl, hc.1, hc.2, h.symm⟩
        · exact Or.inl ha
        · rcases hex with ⟨m2, hm2, h2⟩
          exact Or.inr ⟨m2, Or.inr hm2, h2⟩
      · rintro (ha | ⟨m2, (rfl | hm2), h2⟩)
        · exact Or.inl (Or.inr ha)
        · exact Or.inl (Or.inl h2.2.2.symm)
        · exact Or.inr ⟨m2, hm2, h2⟩
    · rw [if_neg hc, ih]
      simp only [Bool.and_eq_true, decide_eq_true_eq] at hc
      simp only [List.mem_cons]
      constructor
      · rintro (ha | ⟨m2, hm2, h2⟩)
        · exact Or.inl ha
        · exact Or.inr ⟨m2, Or.inr hm2, h2⟩
      · rintro (ha | ⟨m2, (rfl | hm2), h2⟩)
        · exact Or.inl ha
        · exact absurd ⟨h2.1, h2.2.1⟩ hc
        · exact Or.inr ⟨m2, hm2, h2⟩

/-- C6 (amended): find_related_issues returns the ascending, duplicate-free
list of the numbers n of the known-issue set for which the body has an
ISSUE_FIX_PATTERN match (keyword fixe, fixes, fixed, close, closes, closed,
resolve, resolves or resolved, case-insensitive, at a word boundary,
whitespace, then optional owner/repo prefix and hash-number) whose number is
n and whose owner/repo prefix, when present, case-insensitively equals the
current repository; mentions of a different repository and numbers outside
the known set are silently dropped, and an empty body yields the empty
list. -/
theorem find_related_issues_spec (pr_body : String) (issue_numbers : Finset ℕ)
    (owner repo : String) :
    (∀ n : ℕ, n ∈ find_related_issues pr_body issue_numbers owner repo ↔
       (pr_body ≠ "" ∧ n ∈ issue_numbers ∧
        ∃ m ∈ scanFix pr_body, prefixOk m owner repo = true ∧ m.num = n))
  ∧ (find_related_issues pr_body issue_numbers owner repo).Sorted (· ≤ ·)
  ∧ (find_related_issues pr_body issue_numbers owner repo).Nodup := by
  unfold find_related_issues
  by_cases hb : pr_body = ""
  · simp [hb]
  · rw [if_neg hb]
    refine ⟨?_, Finset.sort_sorted _ _, Finset.sort_nodup _ _⟩
    intro n
    rw [Finset.mem_sort, mem_foldl_insert]
    simp only [Finset.not_mem_empty, false_or]
    constructor
    · rintro ⟨m, hm, h1, h2, rfl⟩
      exact ⟨hb, h2, m, hm, h1, rfl⟩
    · rintro ⟨_, h2, m, hm, h1, rfl⟩
      exact ⟨m, hm, h1, h2, rfl⟩

/-- C6 counterexample: the regex keyword atom fixe[sd]? accepts the bare
non-word fixe, so the code extracts issue 1 from the body "fixe #1" although
the claim keyword set (fixes with singular and past-tense variants) contains
no such keyword; conversely the claim accepts the singular fix in "Fix #1",
which the regex, requiring at least fixe, does not match. -/
theorem find_related_issues_counterexample :
    find_related_issues "fixe #1" {1} "o" "r" = [1]
  ∧ find_related_issues_claim "fixe #1" {1} "o" "r" = []
  ∧ find_related_issues "Fix #1" {1} "o" "r" = []
  ∧ find_related_issues_claim "Fix #1" {1} "o" "r" = [1] := by
  have h1 : scanFix "fixe #1" = [⟨none, 1⟩] := rfl
  have h2 : scanFixClaim "fixe #1" = [] := rfl
  have h3 : scanFix "Fix #1" = [] := rfl
  have h4 : scanFixClaim "Fix #1" = [⟨none, 1⟩] := rfl
  refine ⟨?_, ?_, ?_, ?_⟩
  · unfold find_related_issues
    rw [if_neg (by decide), h1]
    simp [prefixOk]
  · unfold find_related_issues_claim
    rw [if_neg (by decide), h2]
    simp
  · unfold find_related_issues
    rw [if_neg (by decide), h3]
    simp
  · unfold find_related_issues_claim
    rw [if_neg (by decide), h4]
    simp [prefixOk]

/-! ### Top-level control flow: process_repo and main. The raw directory of
each repository is summarized by what the source observes of it: whether
issues.json and prs.json exist, and the outcome of json.load on each file,
which can raise a JSONDecodeError, produce something other than a list, or
produce a list. load_json is called with no try/except around it, so a
raising file propagates out of process_repo and aborts the whole run; the
run outcome records this next to the normal exit codes. The per-item
rendering loop is abstracted to a single processed event: the guards do not
influence its internals. -/

/-- What json.load does on one raw file. -/
inductive ParseOutcome where
  | raises
  | notArray
  | array
deriving Repr, DecidableEq

/-- The state of export/raw/SLUG for one repository. -/
structure RepoRaw where
  issuesExists : Bool
  prsExists : Bool
  issuesParse : ParseOutcome
  prsParse : ParseOutcome
deriving Repr, DecidableEq

/-- One observable step of the run. -/
inductive RunEvent where
  | errorMissing (repo : String)
  | errorIssuesNotList (repo : String)
  | errorPrsNotList (repo : String)
  | processed (repo : String)
  | errorInvalidRepo (repo : String)
deriving Repr, DecidableEq

/-- How a run ends: a normal exit with a code, or an exception escaping
main; both carry the events emitted before that point. -/
inductive RunOutcome where
  | exited (code : Nat) (events : List RunEvent)
  | raised (repo : String) (events : List RunEvent)
deriving Repr, DecidableEq

/-- process_repo: report and return on missing files; then json.load both
files, issues first, where an invalid-JSON file raises and the exception
escapes uncaught; then report and return on a non-list issues.json, then on
a non-list prs.json; otherwise process the repository. -/
def process_repo (raw : String → RepoRaw) (repo : String) :
    Except String (List RunEvent) :=
  if !((raw repo).issuesExists && (raw repo).prsExists) then .ok [.errorMissing repo]
  else if (raw repo).issuesParse = .raises then .error repo
  else if (raw repo).prsParse = .raises then .error repo
  else if (raw repo).issuesParse ≠ .array then .ok [.errorIssuesNotList repo]
  else if (raw repo).prsParse ≠ .array then .ok [.errorPrsNotList repo]
  else .ok [.processed repo]

/-- The events of a repository run that returns normally. -/
def repoEvents (raw : String → RepoRaw) (repo : String) : List RunEvent :=
  match process_repo raw repo with
  | .ok evs => evs
  | .error _ => []

/-- main: for each repository argument in order, the slash check first,
returning exit code 1 on the spot; then process_repo, whose uncaught
exception aborts the run; exit code 0 after the loop. -/
def mainRun (raw : String → RepoRaw) : List String → RunOutcome
  | [] => .exited 0 []
  | repo :: rest =>
    if !containsSub "/".toList repo.toList then .exited 1 [.errorInvalidRepo repo]
    else
      match process_repo raw repo with
      | .error r => .raised r []
      | .ok evs =>
        match mainRun raw rest with
        | .exited c evs2 => .exited c (evs ++ evs2)
        | .raised r evs2 => .raised r (evs ++ evs2)

/-- A repository argument that neither trips the slash check nor raises:
it contains the separator, and whenever both raw files exist, both parse. -/
def repoBenign (raw : String → RepoRaw) (r : String) : Prop :=
  containsSub "/".toList r.toList = true ∧
  ((raw r).issuesExists = true → (raw r).prsExists = true →
    (raw r).issuesParse ≠ .raises ∧ (raw r).prsParse ≠ .raises)

instance (raw : String → RepoRaw) (r : String) : Decidable (repoBenign raw r) := by
  unfold repoBenign
  infer_instance

theorem process_repo_benign (raw : String → RepoRaw) (r : String)
    (h : repoBenign raw r) : process_repo raw r = .ok (repoEvents raw r) := by
  unfold repoEvents
  match hp : process_repo raw r with
  | .ok evs => rfl
  | .error e =>
    rcases h with ⟨-, hpar⟩
    unfold process_repo at hp
    split_ifs at hp with h1 h2 h3 h4 h5 <;> simp_all

/-- A raw tree in which every repository is complete and well-formed. -/
def rawAllOk : String → RepoRaw := fun _ => ⟨true, true, .array, .array⟩

/-- A raw tree in which issues.json of c/d exists but is invalid JSON. -/
def rawBadJson : String → RepoRaw := fun r =>
  if r = "c/d" then ⟨true, true, .raises, .array⟩ else ⟨true, true, .array, .array⟩

/-- One file of the export tree. -/
structure FSFile where
  path : List String
  bytes : List Nat
  text : String
deriving Repr, DecidableEq

/-- The final component of a path. -/
def fileName (f : FSFile) : String := (f.path.getLast?).getD ""

/-- Whether the file name ends with the given suffix, as the rglob patterns
*.img and *.md select. -/
def nameEndsWith (f : FSFile) (suf : String) : Bool :=
  suf.toList.reverse.isPrefixOf (fileName f).toList.reverse

/-- The rename loop: for each .img file, sniff its bytes and, when a type is
detected, rename it to the detected extension and record the root-relative
rewrite pair. -/
def renamePhase : List FSFile → List FSFile → List FSFile × List (String × String)
  | fs, [] => (fs, [])
  | fs, img :: rest =>
    match detect_ext img.bytes with
    | none => renamePhase fs rest
    | some ext =>
      let newPath := img.path.dropLast ++ [(withSuffix (fileName img).toList ext.toList).asString]
      let fs2 := fs.map (fun f => if f.path = img.path then { f with path := newPath } else f)
      let r := renamePhase fs2 rest
      (r.1, (String.intercalate "/" img.path, String.intercalate "/" newPath) :: r.2)

/-- The character class of the cleanup .img reference pattern. -/
def imgRefCh (c : Char) : Bool :=
  !(isSpaceCh c || c == '"' || c == '\'' || c == '<' || c == '>')

/-- The greedy backtracking of CLASS+ followed by the literal .img: the
length of the match ending at the last occurrence of .img in the run that
leaves at least one class character before it, if any. -/
def lastImgSplitAux (run : List Char) : Nat → Option Nat
  | 0 => none
  | j + 1 =>
    if ".img".toList.isPrefixOf (run.drop (j + 1)) then some (j + 1 + 4)
    else lastImgSplitAux run j

/-- The match length at a position whose maximal class run is given. -/
def lastImgSplit (run : List Char) : Option Nat := lastImgSplitAux run run.length

/-- re.findall of the .img reference pattern: leftmost non-overlapping
matches; on failure at a position the scan advances one character. -/
def findImgAux : Nat → List Char → List String
  | 0, _ => []
  | _ + 1, [] => []
  | fuel + 1, c :: cs =>
    let run := (c :: cs).takeWhile imgRefCh
    match lastImgSplit run with
    | some len => (run.take len).asString :: findImgAux fuel ((c :: cs).drop len)
    | none => findImgAux fuel cs

/-- All .img references of a Markdown text. -/
def findImg (s : String) : List String :=
  findImgAux s.toList.length s.toList

/-- str.split on the slash. -/
def splitSlash (s : String) : List String :=
  (s.toList.splitOn '/').map List.asString

/-- Path.resolve on components: drop dot and empty components, fold dotdot
into the parent, clamping at the root. -/
def normalizeParts (parts : List String) : List String :=
  parts.foldl (fun acc p =>
    if p = "." ∨ p = "" then acc
    else if p = ".." then acc.dropLast
    else acc ++ [p]) []

/-- The extension candidates of the Markdown repair pass. -/
def extCandidates : List String := [".png", ".jpg", ".jpeg", ".gif", ".webp"]

/-- name.split with underscore and maxsplit 1, first part, plus underscore:
the numeric-prefix key of the fallback. -/
def prefixOfName (name : List Char) : List Char :=
  name.takeWhile (fun c => c ≠ '_') ++ ['_']

/-- The fallback directory scan: the first file of the directory whose name
starts with the numeric prefix and whose lower-cased extension is an image
candidate. -/
def fallbackFind (fs : List FSFile) (dirPath : List String) (pre : List Char) :
    Option String :=
  (fs.find? (fun f => f.path.dropLast = dirPath
      && pre.isPrefixOf (fileName f).toList
      && extCandidates.contains ((pathSuffix (fileName f).toList).map Char.toLower).asString)).map
    fileName

/-- The repair of one matched .img reference: resolve it against the
directory of the Markdown file, try each candidate extension against the
filesystem and rewrite the reference on a hit; otherwise fall back to the
numeric-prefix scan of the resolved directory. -/
def fixImgRef (fs : List FSFile) (mdParent : List String) (t : String)
    (rel : String) : String :=
  let cb := normalizeParts (mdParent ++ splitSlash rel)
  let name := (cb.getLast?).getD ""
  match extCandidates.findSome? (fun ext =>
      if fs.any (fun f => f.path = cb.dropLast ++ [(withSuffix name.toList ext.toList).asString])
      then some ext else none) with
  | some ext =>
    replaceAllStr t rel ((rel.toList.take (rel.toList.length - 4)).asString ++ ext)
  | none =>
    match fallbackFind fs cb.dropLast (prefixOfName name.toList) with
    | some fname =>
      replaceAllStr t rel (String.intercalate "/" ((splitSlash rel).dropLast ++ [fname]))
    | none => t

/-- The Markdown pass for one file: apply the recorded rewrites (plain and
with the two explicit relative spellings), then repair every remaining .img
reference found by the pattern. -/
def processMdText (fs : List FSFile) (mdParent : List String) (text : String)
    (rewrites : List (String × String)) : String :=
  let t1 := rewrites.foldl (fun t pr =>
      replaceAllStr (replaceAllStr (replaceAllStr t pr.1 pr.2)
        ("../" ++ pr.1) ("../" ++ pr.2)) ("./" ++ pr.1) ("./" ++ pr.2)) text
  ((findImg t1).dedup).foldl (fun t rel => fixImgRef fs mdParent t rel) t1

/-- cleanup_img_ext main: rename the .img files whose type the sniffer
identifies, then rewrite every Markdown file. -/
def cleanup_main (fs : List FSFile) : List FSFile :=
  let phase1 := renamePhase fs (fs.filter (fun f => nameEndsWith f ".img"))
  phase1.1.map (fun f =>
    if nameEndsWith f ".md" then
      { f with text := processMdText phase1.1 f.path.dropLast f.text phase1.2 }
    else f)

/-- C9 (amended): on an export tree with no .img files in which no Markdown
text contains a substring matching the .img reference pattern, the cleanup
run changes nothing: no file is renamed and every byte of every file is
unchanged. -/
theorem cleanup_main_noop (fs : List FSFile)
    (h1 : ∀ f ∈ fs, nameEndsWith f ".img" = false)
    (h2 : ∀ f ∈ fs, nameEndsWith f ".md" = true → findImg f.text = []) :
    cleanup_main fs = fs := by
  unfold cleanup_main
  have hf : fs.filter (fun f => nameEndsWith f ".img") = [] := by
    rw [List.filter_eq_nil_iff]
    intro f hfm
    simp [h1 f hfm]
  rw [hf]
  show (renamePhase fs []).1.map _ = fs
  have hr : renamePhase fs [] = (fs, []) := rfl
  rw [hr]
  have : ∀ f ∈ fs, (if nameEndsWith f ".md" then
      { f with text := processMdText fs f.path.dropLast f.text [] } else f) = f := by
    intro f hfm
    by_cases hmd : nameEndsWith f ".md" = true
    · rw [if_pos hmd]
      have ht : processMdText fs f.path.dropLast f.text [] = f.text := by
        unfold processMdText
        rw [List.foldl_nil]
        simp only [h2 f hfm hmd, List.dedup_nil, List.foldl_nil]
      rw [ht]
    · rw [if_neg hmd]
  rw [List.map_congr_left this, List.map_id']

/-- A tree with one Markdown file whose text has no .img reference and one
image file; nothing carries the placeholder extension. -/
def fsNoop : List FSFile :=
  [⟨["R", "issues", "I.md"], [],
    "<img src=\"../assets/issues/1/001_a.png\">"⟩,
   ⟨["R", "assets", "issues", "1", "001_a.png"], pngSig ++ [0, 0, 0, 0], ""⟩]

theorem cleanup_main_noop_witness : cleanup_main fsNoop = fsNoop :=
  cleanup_main_noop fsNoop (by decide) (by decide)

/-- A tree with no .img files in which a Markdown file still references
001_a.img while the file itself was already renamed to 001_a.png. -/
def fsStale : List FSFile :=
  [⟨["R", "issues", "I.md"], [],
    "<img src=\"../assets/issues/1/001_a.img\">"⟩,
   ⟨["R", "assets", "issues", "1", "001_a.png"], pngSig ++ [0, 0, 0, 0], ""⟩]

/-- C9 counterexample: the tree has no file with the placeholder .img
extension, yet the run rewrites the Markdown file (the reference pattern
matches the stale ../assets/issues/1/001_a.img reference and the candidate
001_a.png exists), so the run is not a no-op on every such directory
state. -/
theorem cleanup_main_counterexample :
    (∀ f ∈ fsStale, nameEndsWith f ".img" = false)
  ∧ cleanup_main fsStale
      = [⟨["R", "issues", "I.md"], [],
          "<img src=\"../assets/issues/1/001_a.png\">"⟩,
         ⟨["R", "assets", "issues", "1", "001_a.png"], pngSig ++ [0, 0, 0, 0], ""⟩]
  ∧ cleanup_main fsStale ≠ fsStale := by
  refine ⟨by decide, by decide, ?_⟩
  intro h
  have h2 : cleanup_main fsStale
      = [⟨["R", "issues", "I.md"], [],
          "<img src=\"../assets/issues/1/001_a.png\">"⟩,
         ⟨["R", "assets", "issues", "1", "001_a.png"], pngSig ++ [0, 0, 0, 0], ""⟩] := by
    decide
  rw [h] at h2
  exact absurd h2 (by decide)
